import Mathlib

/-!
Verification development for the GitHub organization-wide search-and-replace
pipeline (src/github-client.ts, src/github-search-replace.ts,
src/search-replace-config.ts).

The embedding is shallow: the external GitHub API is modelled as a record of
pure oracles (an Upstream), every network call the code makes is recorded as
an explicit Effect, and the TypeScript functions become Lean functions over
that model.  JavaScript string semantics are modelled on List Char:

 - content.includes(s) is a literal substring test (jsIncludes);
 - new RegExp(s, "g") followed by match-counting / global replacement is
   modelled by a small JS-regular-expression interpreter covering literal
   characters and the metacharacters dot, plus and star in postfix position,
   with leftmost greedy backtracking matching and the global left-to-right
   non-overlapping scan of String.prototype.match / String.prototype.replace.
   For search strings outside this fragment (other metacharacters) the model
   is not claimed faithful, and no theorem below applies it to such strings.

PR title/body template substitution and the inter-page delay are not
modelled: no verified property below concerns them.
-/

deriving instance DecidableEq for Except

/-- Atom of the modelled JS regular-expression fragment: a literal character
or the dot wildcard (any character except line terminators). -/
inductive RAtom where
  | lit (c : Char)
  | any
  deriving DecidableEq

/-- Token of the modelled fragment: a single atom, or an atom under the
plus (one or more) or star (zero or more) greedy quantifier. -/
inductive RTok where
  | one (a : RAtom)
  | plus (a : RAtom)
  | star (a : RAtom)
  deriving DecidableEq

/-- Semantics of one atom against one character. -/
def matchesAtom (a : RAtom) (c : Char) : Bool :=
  match a with
  | .lit c0 => c0 == c
  | .any => c != '\n' && c != '\r'

/-- Length of the maximal prefix of s whose characters all match atom a. -/
def maxRun (a : RAtom) : List Char → Nat
  | [] => 0
  | c :: cs => if matchesAtom a c then maxRun a cs + 1 else 0

/-- Greedy backtracking for a star quantifier: try consuming k characters,
preferring larger k, then match the rest of the pattern. -/
def tryFrom (rest : List Char → Option Nat) (s : List Char) : Nat → Option Nat
  | 0 => rest s
  | k + 1 =>
    match rest (s.drop (k + 1)) with
    | some n => some (k + 1 + n)
    | none => tryFrom rest s k

/-- Greedy backtracking for a plus quantifier: like tryFrom but at least one
character must be consumed. -/
def tryFromPos (rest : List Char → Option Nat) (s : List Char) : Nat → Option Nat
  | 0 => none
  | k + 1 =>
    match rest (s.drop (k + 1)) with
    | some n => some (k + 1 + n)
    | none => tryFromPos rest s k

/-- Length of the leftmost-greedy match of the token list at the head of s,
if any; fuel bounds the recursion on the token list. -/
def matchLenF : Nat → List RTok → List Char → Option Nat
  | 0, _, _ => none
  | _ + 1, [], _ => some 0
  | f + 1, .one a :: ts, s =>
    match s with
    | [] => none
    | c :: cs => if matchesAtom a c then (matchLenF f ts cs).map (· + 1) else none
  | f + 1, .plus a :: ts, s => tryFromPos (matchLenF f ts) s (maxRun a s)
  | f + 1, .star a :: ts, s => tryFrom (matchLenF f ts) s (maxRun a s)

/-- Length of the match of a whole pattern at the head of s, if any. -/
def matchLen (ts : List RTok) (s : List Char) : Option Nat :=
  matchLenF (ts.length + 1) ts s

/-- Parser from a raw JS pattern string (as the code passes searchString to
new RegExp) into the modelled fragment: dot is a wildcard, a following plus
or star quantifies the preceding atom, everything else is a literal. -/
def parsePattern : List Char → List RTok
  | [] => []
  | [c] => [RTok.one (if c = '.' then RAtom.any else RAtom.lit c)]
  | c :: d :: rest =>
    let a := if c = '.' then RAtom.any else RAtom.lit c
    if d = '+' then RTok.plus a :: parsePattern rest
    else if d = '*' then RTok.star a :: parsePattern rest
    else RTok.one a :: parsePattern (d :: rest)

/-- Global left-to-right non-overlapping match count, as in
str.match(new RegExp(p, "g")): scan from the left, count each leftmost
match and resume after it (an empty match advances by one character). -/
def gCountF : Nat → List RTok → List Char → Nat
  | 0, _, _ => 0
  | f + 1, ts, s =>
    match matchLenF (ts.length + 1) ts s, s with
    | some (n + 1), _ => 1 + gCountF f ts (s.drop (n + 1))
    | some 0, [] => 1
    | some 0, _ :: rest => 1 + gCountF f ts rest
    | none, [] => 0
    | none, _ :: rest => gCountF f ts rest

/-- Global replacement, as in str.replace(new RegExp(p, "g"), r). -/
def gReplaceF : Nat → List RTok → List Char → List Char → List Char
  | 0, _, _, s => s
  | f + 1, ts, r, s =>
    match matchLenF (ts.length + 1) ts s, s with
    | some (n + 1), _ => r ++ gReplaceF f ts r (s.drop (n + 1))
    | some 0, [] => r
    | some 0, c :: rest => r ++ c :: gReplaceF f ts r rest
    | none, [] => []
    | none, c :: rest => c :: gReplaceF f ts r rest

/-- Does the pattern match anywhere in s, as in new RegExp(p).test(s). -/
def regexTestF : Nat → List RTok → List Char → Bool
  | 0, _, _ => false
  | f + 1, ts, s =>
    match matchLenF (ts.length + 1) ts s, s with
    | some _, _ => true
    | none, [] => false
    | none, _ :: rest => regexTestF f ts rest

/-- Model of the match count the code computes at github-client.ts:128, i.e.
(content.match(new RegExp(searchString, "g")) or empty).length. -/
def jsMatchCount (pat str : String) : Nat :=
  gCountF (str.length + 1) (parsePattern pat.toList) str.toList

/-- Model of the replacement the code performs at github-client.ts:329, i.e.
content.replace(new RegExp(searchString, "g"), replacementString). -/
def jsReplaceAll (pat repl str : String) : String :=
  String.mk (gReplaceF (str.length + 1) (parsePattern pat.toList) repl.toList str.toList)

/-- Model of new RegExp(p).test(s) used for exclude-pattern globs. -/
def regexTest (ts : List RTok) (s : List Char) : Bool :=
  regexTestF (s.length + 1) ts s

/-- Literal substring test on char lists (hay contains needle). -/
def containsSub (needle : List Char) : List Char → Bool
  | [] => needle.isEmpty
  | c :: rest => needle.isPrefixOf (c :: rest) || containsSub needle rest

/-- Model of JS hay.includes(needle): literal substring containment. -/
def jsIncludes (hay needle : String) : Bool :=
  containsSub needle.toList hay.toList

/-- Count of literal non-overlapping left-to-right occurrences of needle.
This definition follows the specification text (literal occurrences), for
comparison with the regex-based count the code computes. -/
def literalCountF : Nat → List Char → List Char → Nat
  | 0, _, _ => 0
  | f + 1, needle, s =>
    if needle ≠ [] ∧ needle.isPrefixOf s then
      1 + literalCountF f needle (s.drop needle.length)
    else
      match s with
      | [] => 0
      | _ :: rest => literalCountF f needle rest

/-- Number of literal occurrences of needle in hay (specification-side
definition for the literal-substring-safety comparison). -/
def literalOccurrences (needle hay : String) : Nat :=
  literalCountF (hay.length + 1) needle.toList hay.toList

/-- Literal global replacement on char lists, following the specification
text (literal, global string substitution). -/
def literalReplaceF : Nat → List Char → List Char → List Char → List Char
  | 0, _, _, s => s
  | f + 1, needle, r, s =>
    if needle ≠ [] ∧ needle.isPrefixOf s then
      r ++ literalReplaceF f needle r (s.drop needle.length)
    else
      match s with
      | [] => []
      | c :: rest => c :: literalReplaceF f needle r rest

/-- Replace every literal occurrence of needle in hay by repl
(specification-side definition for the literal-substitution comparison). -/
def literalReplaceAll (needle repl hay : String) : String :=
  String.mk (literalReplaceF (hay.length + 1) needle.toList repl.toList hay.toList)

/-- The JS regular-expression metacharacters; a search string avoiding all
of them is interpreted by new RegExp exactly as its literal character
sequence. -/
def jsRegexMeta : List Char :=
  ['\\', '^', '$', '.', '|', '?', '*', '+', '(', ')', '[', ']',
   Char.ofNat 123, Char.ofNat 125]

/-- A search string free of regex metacharacters. -/
def regexSafe (s : String) : Bool :=
  s.toList.all (fun c => !(jsRegexMeta.contains c))

/-- Run configuration, mirroring SearchReplaceConfig in
search-replace-config.ts.  Optional TypeScript fields are modelled by their
defined-case values (an absent list behaves like the empty list in every
code path that reads it, and an absent boolean like false). -/
structure SearchReplaceConfig where
  githubToken : String
  organizations : List String
  searchString : String
  replacementString : String
  includeExtensions : List String
  excludePatterns : List String
  includeArchived : Bool
  repositoryTypes : List String
  branchPrefix : String
  prTitle : String
  prBody : String
  prLabels : List String
  dryRun : Bool
  maxReposPerOrg : Nat
  deriving DecidableEq

/-- Model of validateConfig in search-replace-config.ts: the error list is
accumulated in the source's push order. -/
def validateConfig (config : SearchReplaceConfig) : List String :=
  (if config.githubToken = "" then ["GitHub token is required"] else []) ++
  (if config.organizations = [] then ["At least one organization must be specified"] else []) ++
  (if config.searchString = "" then ["Search string is required"] else []) ++
  (if config.replacementString = "" then ["Replacement string is required"] else []) ++
  (if config.searchString = config.replacementString then
    ["Search and replacement strings cannot be the same"] else [])

/-- The configuration fields searchAcrossOrganizations actually reads; the
searchParams projection below makes it explicit that the search engine is
independent of every other field (in particular of dryRun). -/
structure SearchParams where
  searchString : String
  organizations : List String
  includeArchived : Bool
  repositoryTypes : List String
  excludePatterns : List String
  deriving DecidableEq

def searchParams (cfg : SearchReplaceConfig) : SearchParams :=
  { searchString := cfg.searchString, organizations := cfg.organizations,
    includeArchived := cfg.includeArchived, repositoryTypes := cfg.repositoryTypes,
    excludePatterns := cfg.excludePatterns }

/-- FileMatch, mirroring github-client.ts. -/
structure FileMatch where
  path : String
  content : String
  sha : String
  matchCount : Nat
  repository : String
  url : String
  deriving DecidableEq

/-- PRCreationResult, mirroring github-client.ts. -/
structure PRCreationResult where
  repository : String
  prNumber : Nat
  prUrl : String
  filesChanged : Nat
  branchName : String
  deriving DecidableEq

/-- ExecutionSummary, mirroring github-search-replace.ts. -/
structure ExecutionSummary where
  totalRepositories : Nat
  repositoriesWithMatches : Nat
  totalFilesChanged : Nat
  successfulPRs : Nat
  failedPRs : Nat
  prs : List PRCreationResult
  errors : List String
  deriving DecidableEq

/-- One item of a GitHub code-search response page, with the repository
fields the code reads.  isPrivate models the item's private flag (private is
a reserved word in Lean). -/
structure SearchItem where
  path : String
  fullName : String
  ownerLogin : String
  repoName : String
  defaultBranch : String
  archived : Bool
  visibility : String
  isPrivate : Bool
  htmlUrl : String
  deriving DecidableEq

/-- One code-search response page. -/
structure SearchPage where
  items : List SearchItem
  total_count : Nat
  deriving DecidableEq

/-- Result of the get-content API call: a file blob with content and sha, or
a directory / non-file blob. -/
inductive ContentResp where
  | file (content sha : String)
  | nonFile
  deriving DecidableEq

/-- RepositoryInfo, mirroring github-client.ts. -/
structure RepositoryInfo where
  name : String
  fullName : String
  defaultBranch : String
  isArchived : Bool
  visibility : String
  cloneUrl : String
  deriving DecidableEq

/-- Decoded file content and sha as getFileContent returns them. -/
structure FileData where
  content : String
  sha : String
  deriving DecidableEq

/-- Every network call the pipeline issues, recorded as an observable
effect, plus the warn log calls (the code's only user-visible warnings). -/
inductive Effect where
  | searchCall (page perPage : Nat)
  | fileFetch (owner repo path ref : String)
  | repoGet (repo : String)
  | getRef (repo : String)
  | createRef (repo branch : String)
  | commitFile (repo path branch content : String)
  | openPR (repo : String)
  | addLabels (repo : String)
  | warn (msg : String)
  deriving DecidableEq

/-- Does the effect mutate upstream state (branch creation, file commit, PR
creation, label addition)? -/
def Effect.isMutation : Effect → Bool
  | .createRef _ _ => true
  | .commitFile _ _ _ _ => true
  | .openPR _ => true
  | .addLabels _ => true
  | _ => false

/-- Pure model of the external GitHub API: each octokit call the code makes
is an oracle.  Error payloads are the message strings the thrown errors
carry (the code only ever propagates err.message).  A commit whose provided
sha differs from the file's current blob sha is rejected (GitHub's 409
optimistic-concurrency behaviour); commitErr models any other commit
failure, and the remaining Option String oracles model failures of the
corresponding calls. -/
structure Upstream where
  searchCode : String → Nat → Except String SearchPage
  getContent : String → String → String → String → Except String ContentResp
  repoInfo : String → Option RepositoryInfo
  getRefSha : String → String → Except String String
  createRefErr : String → String → Option String
  currentFileSha : String → String → String
  commitErr : String → String → Option String
  prCreate : String → Except String (Nat × String)
  addLabelsErr : String → Option String
  timestamp : String

/-- Per-repository match map with JS Map insertion-order semantics: an
association list in key insertion order, file matches appended per key. -/
abbrev MatchMap := List (String × List FileMatch)

/-- Model of the allMatches updates at github-client.ts:143-146: create the
key on first use (at the end, preserving insertion order), then push. -/
def mapPush (mm : MatchMap) (k : String) (v : FileMatch) : MatchMap :=
  match mm with
  | [] => [(k, [v])]
  | (k0, vs) :: rest =>
    if k0 = k then (k0, vs ++ [v]) :: rest else (k0, vs) :: mapPush rest k v

/-- Model of shouldProcessRepository, including the source's operator
precedence: repo.visibility OR repo.private ? "private" : "public" groups
as (visibility OR private) ? "private" : "public". -/
def shouldProcessRepository (p : SearchParams) (it : SearchItem) : Bool :=
  if !p.includeArchived && it.archived then false
  else if p.repositoryTypes ≠ [] then
    let vis := if it.visibility ≠ "" ∨ it.isPrivate then "private" else "public"
    p.repositoryTypes.contains vis
  else true

/-- Model of the wildcard-to-regex translation in shouldExcludePath:
every star becomes dot-star, other characters are left untranslated. -/
def globToRegexChars : List Char → List Char
  | [] => []
  | c :: rest =>
    if c = '*' then '.' :: '*' :: globToRegexChars rest else c :: globToRegexChars rest

/-- Model of shouldExcludePath in github-client.ts. -/
def shouldExcludePath (p : SearchParams) (path : String) : Bool :=
  p.excludePatterns.any fun pat =>
    if pat.toList.contains '*' then
      regexTest (parsePattern (globToRegexChars pat.toList)) path.toList
    else jsIncludes path pat

/-- Model of the default-branch fallback item.repository.default_branch
or "main". -/
def defaultBranchOr (b : String) : String :=
  if b = "" then "main" else b

/-- Model of getFileContent in github-client.ts: decodes a file blob,
returns none for directories and non-file blobs, and wraps fetch failures
in the Failed-to-get-file-content message. -/
def getFileContent (up : Upstream) (owner repo path ref : String) :
    Except String (Option FileData) × List Effect :=
  match up.getContent owner repo path ref with
  | .error e =>
    (.error ("Failed to get file content: " ++ e), [.fileFetch owner repo path ref])
  | .ok .nonFile => (.ok none, [.fileFetch owner repo path ref])
  | .ok (.file c sh) =>
    (.ok (some { content := c, sha := sh }), [.fileFetch owner repo path ref])

/-- The warning logged when a file fetch fails during search. -/
def fetchWarnMsg (repo path msg : String) : String :=
  "Could not fetch content for " ++ repo ++ "/" ++ path ++ ": " ++ msg

/-- Model of the per-item body of the search loop (github-client.ts:100-155):
repository and path filters, file fetch guarded by try/catch (failure is a
warning, not an abort), inclusion only when the fetched content still
literally contains the search string, match count by global regex. -/
def processItem (up : Upstream) (p : SearchParams) (acc : MatchMap) (it : SearchItem) :
    MatchMap × List Effect :=
  if shouldProcessRepository p it = false then (acc, [])
  else if shouldExcludePath p it.path = true then (acc, [])
  else
    let fr := getFileContent up it.ownerLogin it.repoName it.path (defaultBranchOr it.defaultBranch)
    match fr.1 with
    | .error e => (acc, fr.2 ++ [.warn (fetchWarnMsg it.fullName it.path e)])
    | .ok none => (acc, fr.2)
    | .ok (some fc) =>
      if jsIncludes fc.content p.searchString = true then
        (mapPush acc it.fullName
          { path := it.path, content := fc.content, sha := fc.sha,
            matchCount := jsMatchCount p.searchString fc.content,
            repository := it.fullName, url := it.htmlUrl }, fr.2)
      else (acc, fr.2)

def processItems (up : Upstream) (p : SearchParams) :
    MatchMap → List SearchItem → MatchMap × List Effect
  | acc, [] => (acc, [])
  | acc, it :: rest =>
    let r1 := processItem up p acc it
    let r2 := processItems up p r1.1 rest
    (r2.1, r1.2 ++ r2.2)

/-- The single search query string built at github-client.ts:67. -/
def buildQuery (p : SearchParams) : String :=
  "\"" ++ p.searchString ++ "\" " ++
    String.intercalate " " (p.organizations.map (fun org => "org:" ++ org))

/-- Model of the while loop of searchAcrossOrganizations: page counts up
from 1 and the loop runs while hasMoreResults and page at most 10, so fuel
11 minus page mirrors the bound; every page is requested with per_page
100; hasMoreResults is items.length equals 100 and page below
ceil(total_count divided by 100). -/
def searchPagesLoop (up : Upstream) (p : SearchParams) :
    Nat → Nat → MatchMap → Except String MatchMap × List Effect
  | 0, _, acc => (.ok acc, [])
  | fuel + 1, page, acc =>
    match up.searchCode (buildQuery p) page with
    | .error e => (.error e, [.searchCall page 100])
    | .ok pg =>
      if pg.items.length = 0 then (.ok acc, [.searchCall page 100])
      else
        let r := processItems up p acc pg.items
        if pg.items.length = 100 ∧ page < (pg.total_count + 99) / 100 then
          let r2 := searchPagesLoop up p fuel (page + 1) r.1
          (r2.1, Effect.searchCall page 100 :: r.2 ++ r2.2)
        else (.ok r.1, Effect.searchCall page 100 :: r.2)

/-- Model of searchAcrossOrganizations: pages 1 up to 10; a failure of the
search call itself is rethrown (the Except error), per-file failures are
not. -/
def searchAcrossOrganizations (up : Upstream) (p : SearchParams) :
    Except String MatchMap × List Effect :=
  searchPagesLoop up p 10 1 []

/-- The message of GitHub's 409 rejection of a create-or-update-file call
whose provided sha is stale (modelled message text; the code never inspects
it, it only propagates it). -/
def shaConflictMsg (path sha : String) : String :=
  path ++ " does not match expected sha " ++ sha

/-- Outcome of one createOrUpdateFileContents call: rejected when the
provided sha differs from the file's current blob sha, otherwise subject to
the generic commit-failure oracle. -/
def commitResult (up : Upstream) (repo path sha : String) : Option String :=
  if up.currentFileSha repo path ≠ sha then some (shaConflictMsg path sha)
  else up.commitErr repo path

/-- Model of the file-update loop of createPullRequest
(github-client.ts:328-343): for each match, the committed content is the
global regex replacement of searchString by replacementString on the
content captured at search time; the first failing commit aborts the
repository. -/
def commitMatches (up : Upstream) (cfg : SearchReplaceConfig) (repo branch : String) :
    List FileMatch → Except String Unit × List Effect
  | [] => (.ok (), [])
  | m :: rest =>
    let newContent := jsReplaceAll cfg.searchString cfg.replacementString m.content
    match commitResult up repo m.path m.sha with
    | some e => (.error e, [.commitFile repo m.path branch newContent])
    | none =>
      let r := commitMatches up cfg repo branch rest
      (r.1, Effect.commitFile repo m.path branch newContent :: r.2)

/-- Model of createPullRequest in github-client.ts: resolve repository info,
read the base ref, create the branch, commit every file, open the PR, then
best-effort labels (a label failure is only a warning).  Every failure
before the PR result is rethrown unchanged as the Except error; no failure
is wrapped in a dedicated error type. -/
def createPullRequest (up : Upstream) (cfg : SearchReplaceConfig)
    (repoFullName : String) (fileMatches : List FileMatch) :
    Except String PRCreationResult × List Effect :=
  let branchName := cfg.branchPrefix ++ "-" ++ up.timestamp
  match up.repoInfo repoFullName with
  | none =>
    (.error ("Could not get repository information for " ++ repoFullName),
     [.repoGet repoFullName])
  | some ri =>
    match up.getRefSha repoFullName ri.defaultBranch with
    | .error e => (.error e, [.repoGet repoFullName, .getRef repoFullName])
    | .ok _ =>
      match up.createRefErr repoFullName branchName with
      | some e =>
        (.error e,
         [.repoGet repoFullName, .getRef repoFullName, .createRef repoFullName branchName])
      | none =>
        let pre : List Effect :=
          [.repoGet repoFullName, .getRef repoFullName, .createRef repoFullName branchName]
        let cr := commitMatches up cfg repoFullName branchName fileMatches
        match cr.1 with
        | .error e => (.error e, pre ++ cr.2)
        | .ok _ =>
          match up.prCreate repoFullName with
          | .error e => (.error e, pre ++ cr.2 ++ [.openPR repoFullName])
          | .ok pr =>
            let res : PRCreationResult :=
              { repository := repoFullName, prNumber := pr.1, prUrl := pr.2,
                filesChanged := fileMatches.length, branchName := branchName }
            if cfg.prLabels ≠ [] then
              match up.addLabelsErr repoFullName with
              | some e =>
                (.ok res, pre ++ cr.2 ++
                  [.openPR repoFullName, .addLabels repoFullName,
                   .warn ("Could not add labels to PR " ++ toString pr.1 ++
                     " in " ++ repoFullName ++ ": " ++ e)])
              | none =>
                (.ok res, pre ++ cr.2 ++ [.openPR repoFullName, .addLabels repoFullName])
            else (.ok res, pre ++ cr.2 ++ [.openPR repoFullName])

/-- The summary as initialized at github-search-replace.ts:38-46. -/
def initSummary : ExecutionSummary :=
  { totalRepositories := 0, repositoriesWithMatches := 0, totalFilesChanged := 0,
    successfulPRs := 0, failedPRs := 0, prs := [], errors := [] }

/-- Model of one iteration of the per-repository loop of
executeSearchReplace: the file count is added before the dry-run check, a
dry run skips PR creation entirely, and a PR-creation failure is folded
into failedPRs and errors while the loop keeps going. -/
def processRepo (up : Upstream) (cfg : SearchReplaceConfig)
    (s : ExecutionSummary) (entry : String × List FileMatch) :
    ExecutionSummary × List Effect :=
  let s1 := { s with totalFilesChanged := s.totalFilesChanged + entry.2.length }
  if cfg.dryRun then (s1, [])
  else
    let r := createPullRequest up cfg entry.1 entry.2
    match r.1 with
    | .ok pr =>
      ({ s1 with prs := s1.prs ++ [pr], successfulPRs := s1.successfulPRs + 1 }, r.2)
    | .error m =>
      ({ s1 with
          failedPRs := s1.failedPRs + 1,
          errors := s1.errors ++ ["Failed to create PR for " ++ entry.1 ++ ": " ++ m] }, r.2)

def processRepos (up : Upstream) (cfg : SearchReplaceConfig) :
    List (String × List FileMatch) → ExecutionSummary → ExecutionSummary × List Effect
  | [], s => (s, [])
  | entry :: rest, s =>
    let r1 := processRepo up cfg s entry
    let r2 := processRepos up cfg rest r1.1
    (r2.1, r1.2 ++ r2.2)

/-- Model of executeSearchReplace in github-search-replace.ts.  A non-empty
validation error list makes the function throw (the Except error) before
any network call; afterwards a search failure is caught into the summary's
errors and each repository is processed with per-repository failure
isolation, so the function returns a summary. -/
def executeSearchReplace (up : Upstream) (cfg : SearchReplaceConfig) :
    Except String ExecutionSummary × List Effect :=
  if validateConfig cfg ≠ [] then
    (.error ("Configuration errors: " ++ String.intercalate ", " (validateConfig cfg)), [])
  else
    match searchAcrossOrganizations up (searchParams cfg) with
    | (.error m, effs) =>
      (.ok { initSummary with errors := ["Error during search operation: " ++ m] }, effs)
    | (.ok mm, effs) =>
      let r := processRepos up cfg mm { initSummary with repositoriesWithMatches := mm.length }
      (.ok r.1, effs ++ r.2)

/-- A minimal valid configuration used by concrete runs. -/
def cfgBase : SearchReplaceConfig :=
  { githubToken := "t", organizations := ["o"], searchString := "old",
    replacementString := "new", includeExtensions := [], excludePatterns := [],
    includeArchived := false, repositoryTypes := [], branchPrefix := "bp",
    prTitle := "T", prBody := "B", prLabels := [], dryRun := false,
    maxReposPerOrg := 50 }

/-- An upstream with no search results and failing publish calls. -/
def upNone : Upstream :=
  { searchCode := fun _ _ => .ok { items := [], total_count := 0 },
    getContent := fun _ _ _ _ => .ok .nonFile,
    repoInfo := fun _ => none,
    getRefSha := fun _ _ => .error "ref error",
    createRefErr := fun _ _ => none,
    currentFileSha := fun _ _ => "",
    commitErr := fun _ _ => none,
    prCreate := fun _ => .error "pr error",
    addLabelsErr := fun _ => none,
    timestamp := "ts" }

/-- A search hit in repository o/r at path f. -/
def itemA : SearchItem :=
  { path := "f", fullName := "o/r", ownerLogin := "o", repoName := "r",
    defaultBranch := "main", archived := false, visibility := "",
    isPrivate := false, htmlUrl := "u" }

/-- Repository info for o/r. -/
def riA : RepositoryInfo :=
  { name := "r", fullName := "o/r", defaultBranch := "main",
    isArchived := false, visibility := "private", cloneUrl := "" }

/-- An upstream with one hit whose file content is the given string, and a
publish path that succeeds (current sha matches the fetched sha s1). -/
def upOneFile (content : String) : Upstream :=
  { searchCode := fun _ page =>
      if page = 1 then .ok { items := [itemA], total_count := 1 }
      else .ok { items := [], total_count := 0 },
    getContent := fun _ _ _ _ => .ok (.file content "s1"),
    repoInfo := fun _ => some riA,
    getRefSha := fun _ _ => .ok "base",
    createRefErr := fun _ _ => none,
    currentFileSha := fun _ _ => "s1",
    commitErr := fun _ _ => none,
    prCreate := fun _ => .ok (1, "prurl"),
    addLabelsErr := fun _ => none,
    timestamp := "ts" }

example :
    (searchAcrossOrganizations (upOneFile "zoldz") (searchParams cfgBase)).1 =
      .ok [("o/r", [{ path := "f", content := "zoldz", sha := "s1", matchCount := 1,
                      repository := "o/r", url := "u" }])] := by decide

example :
    (executeSearchReplace (upOneFile "zoldz") cfgBase).2 =
      [Effect.searchCall 1 100, Effect.fileFetch "o" "r" "f" "main",
       Effect.repoGet "o/r", Effect.getRef "o/r", Effect.createRef "o/r" "bp-ts",
       Effect.commitFile "o/r" "f" "bp-ts" "znewz", Effect.openPR "o/r"] := by decide

example :
    (executeSearchReplace (upOneFile "zoldz") cfgBase).1 =
      .ok { totalRepositories := 0, repositoriesWithMatches := 1,
            totalFilesChanged := 1, successfulPRs := 1, failedPRs := 0,
            prs := [{ repository := "o/r", prNumber := 1, prUrl := "prurl",
                      filesChanged := 1, branchName := "bp-ts" }],
            errors := [] } := by decide

/-- Invariant of every FileMatch the search engine stores: its content was
fetched as an actual file blob (not a directory), it still literally
contains the search string, and its match count is exactly the
global-regex count the code computes. -/
def goodMatch (up : Upstream) (p : SearchParams) (m : FileMatch) : Prop :=
  jsIncludes m.content p.searchString = true ∧
  m.matchCount = jsMatchCount p.searchString m.content ∧
  ∃ o r pa rf, up.getContent o r pa rf = .ok (.file m.content m.sha)

def goodMap (up : Upstream) (p : SearchParams) (mm : MatchMap) : Prop :=
  ∀ repo ms, (repo, ms) ∈ mm → ∀ m ∈ ms, goodMatch up p m

theorem mapPush_mem (k : String) (v m : FileMatch) :
    ∀ (mm : MatchMap) (repo : String) (ms : List FileMatch),
      (repo, ms) ∈ mapPush mm k v → m ∈ ms →
      (∃ ms0, (repo, ms0) ∈ mm ∧ m ∈ ms0) ∨ m = v := by
  intro mm
  induction mm with
  | nil =>
    intro repo ms hmem hm
    simp [mapPush] at hmem
    obtain ⟨h1, h2⟩ := hmem
    subst h2
    right
    simpa using hm
  | cons hd tl ih =>
    intro repo ms hmem hm
    obtain ⟨k0, vs⟩ := hd
    simp only [mapPush] at hmem
    split at hmem
    · rcases List.mem_cons.mp hmem with heq | htl
      · injection heq with h1 h2
        rcases List.mem_append.mp (h2 ▸ hm) with hmem2 | hmem2
        · exact Or.inl ⟨vs, by rw [h1]; exact List.mem_cons_self _ _, hmem2⟩
        · exact Or.inr (by simpa using hmem2)
      · exact Or.inl ⟨ms, List.mem_cons_of_mem _ htl, hm⟩
    · rcases List.mem_cons.mp hmem with heq | htl
      · injection heq with h1 h2
        exact Or.inl ⟨vs, by rw [h1]; exact List.mem_cons_self _ _, h2 ▸ hm⟩
      · rcases ih repo ms htl hm with ⟨ms0, h1, h2⟩ | h
        · exact Or.inl ⟨ms0, List.mem_cons_of_mem _ h1, h2⟩
        · exact Or.inr h

theorem mapPush_good (up : Upstream) (p : SearchParams) (k : String) (v : FileMatch)
    (mm : MatchMap) (hv : goodMatch up p v) (h : goodMap up p mm) :
    goodMap up p (mapPush mm k v) := by
  intro repo ms hmem m hm
  rcases mapPush_mem k v m mm repo ms hmem hm with ⟨ms0, h1, h2⟩ | heq
  · exact h repo ms0 h1 m h2
  · rw [heq]; exact hv

theorem processItem_good (up : Upstream) (p : SearchParams) (acc : MatchMap)
    (it : SearchItem) (h : goodMap up p acc) :
    goodMap up p (processItem up p acc it).1 := by
  unfold processItem
  split
  · exact h
  · split
    · exact h
    · cases hg : up.getContent it.ownerLogin it.repoName it.path (defaultBranchOr it.defaultBranch) with
      | error e =>
        simp only [getFileContent, hg]
        exact h
      | ok cr =>
        cases cr with
        | nonFile =>
          simp only [getFileContent, hg]
          exact h
        | file c sh =>
          simp only [getFileContent, hg]
          split
          case isTrue hin =>
            exact mapPush_good up p it.fullName _ acc
              ⟨hin, rfl, it.ownerLogin, it.repoName, it.path,
                defaultBranchOr it.defaultBranch, by rw [hg]⟩ h
          case isFalse _ => exact h

theorem processItems_good (up : Upstream) (p : SearchParams) :
    ∀ (items : List SearchItem) (acc : MatchMap), goodMap up p acc →
      goodMap up p (processItems up p acc items).1 := by
  intro items
  induction items with
  | nil => intro acc h; exact h
  | cons it rest ih =>
    intro acc h
    simp only [processItems]
    exact ih _ (processItem_good up p acc it h)

theorem searchLoop_good (up : Upstream) (p : SearchParams) :
    ∀ (fuel page : Nat) (acc mm : MatchMap),
      goodMap up p acc → (searchPagesLoop up p fuel page acc).1 = .ok mm →
      goodMap up p mm := by
  intro fuel
  induction fuel with
  | zero =>
    intro page acc mm h hok
    simp only [searchPagesLoop] at hok
    cases hok
    exact h
  | succ f ih =>
    intro page acc mm h hok
    simp only [searchPagesLoop] at hok
    cases hs : up.searchCode (buildQuery p) page with
    | error e =>
      rw [hs] at hok
      simp at hok
    | ok pg =>
      rw [hs] at hok
      dsimp only at hok
      by_cases h0 : pg.items.length = 0
      · rw [if_pos h0] at hok
        cases hok
        exact h
      · rw [if_neg h0] at hok
        by_cases hmore : pg.items.length = 100 ∧ page < (pg.total_count + 99) / 100
        · rw [if_pos hmore] at hok
          dsimp only at hok
          exact ih (page + 1) _ mm (processItems_good up p pg.items acc h) hok
        · rw [if_neg hmore] at hok
          cases hok
          exact processItems_good up p pg.items acc h

/-- Every match stored by a completed search satisfies the goodMatch
invariant. -/
theorem search_good (up : Upstream) (p : SearchParams) (mm : MatchMap)
    (hok : (searchAcrossOrganizations up p).1 = .ok mm) :
    goodMap up p mm := by
  refine searchLoop_good up p 10 1 [] mm ?_ hok
  intro repo ms hmem
  simp at hmem

theorem processItem_effects (up : Upstream) (p : SearchParams) (acc : MatchMap)
    (it : SearchItem) :
    ∀ e ∈ (processItem up p acc it).2,
      (∃ o r pa rf, e = Effect.fileFetch o r pa rf) ∨
      (∃ repo pa msg, e = Effect.warn (fetchWarnMsg repo pa msg)) := by
  intro eff heff
  by_cases h1 : shouldProcessRepository p it = false
  · simp [processItem, h1] at heff
  · by_cases h2 : shouldExcludePath p it.path = true
    · simp [processItem, h1, h2] at heff
    · cases hg : up.getContent it.ownerLogin it.repoName it.path (defaultBranchOr it.defaultBranch) with
      | error e2 =>
        simp [processItem, h1, h2, getFileContent, hg] at heff
        rcases heff with h | h
        · exact Or.inl ⟨_, _, _, _, h⟩
        · exact Or.inr ⟨it.fullName, it.path, _, h⟩
      | ok cr =>
        cases cr with
        | nonFile =>
          simp [processItem, h1, h2, getFileContent, hg] at heff
          exact Or.inl ⟨_, _, _, _, heff⟩
        | file c sh =>
          by_cases h3 : jsIncludes c p.searchString = true
          · simp [processItem, h1, h2, getFileContent, hg, h3] at heff
            exact Or.inl ⟨_, _, _, _, heff⟩
          · simp [processItem, h1, h2, getFileContent, hg, h3] at heff
            exact Or.inl ⟨_, _, _, _, heff⟩

theorem processItems_effects (up : Upstream) (p : SearchParams) :
    ∀ (items : List SearchItem) (acc : MatchMap),
      ∀ e ∈ (processItems up p acc items).2,
        (∃ o r pa rf, e = Effect.fileFetch o r pa rf) ∨
        (∃ repo pa msg, e = Effect.warn (fetchWarnMsg repo pa msg)) := by
  intro items
  induction items with
  | nil =>
    intro acc e he
    simp [processItems] at he
  | cons it rest ih =>
    intro acc e he
    simp only [processItems] at he
    rcases List.mem_append.mp he with h | h
    · exact processItem_effects up p acc it e h
    · exact ih _ e h

theorem searchLoop_effects (up : Upstream) (p : SearchParams) :
    ∀ (fuel page : Nat) (acc : MatchMap), fuel + page ≤ 11 → 1 ≤ page →
      ∀ e ∈ (searchPagesLoop up p fuel page acc).2,
        (∃ pg2, e = Effect.searchCall pg2 100 ∧ 1 ≤ pg2 ∧ pg2 ≤ 10) ∨
        (∃ o r pa rf, e = Effect.fileFetch o r pa rf) ∨
        (∃ repo pa msg, e = Effect.warn (fetchWarnMsg repo pa msg)) := by
  intro fuel
  induction fuel with
  | zero =>
    intro page acc _ _ e he
    simp [searchPagesLoop] at he
  | succ f ih =>
    intro page acc hb hp e he
    have hpage10 : page ≤ 10 := by omega
    simp only [searchPagesLoop] at he
    cases hs : up.searchCode (buildQuery p) page with
    | error e2 =>
      rw [hs] at he
      dsimp only at he
      simp at he
      subst he
      exact Or.inl ⟨page, rfl, hp, hpage10⟩
    | ok pg =>
      rw [hs] at he
      dsimp only at he
      by_cases h0 : pg.items.length = 0
      · rw [if_pos h0] at he
        simp at he
        subst he
        exact Or.inl ⟨page, rfl, hp, hpage10⟩
      · rw [if_neg h0] at he
        by_cases hmore : pg.items.length = 100 ∧ page < (pg.total_count + 99) / 100
        · rw [if_pos hmore] at he
          dsimp only at he
          rcases List.mem_cons.mp he with h | h
          · subst h
            exact Or.inl ⟨page, rfl, hp, hpage10⟩
          · rcases List.mem_append.mp h with h2 | h2
            · exact Or.inr (processItems_effects up p pg.items acc e h2)
            · exact ih (page + 1) _ (by omega) (by omega) e h2
        · rw [if_neg hmore] at he
          rcases List.mem_cons.mp he with h | h
          · subst h
            exact Or.inl ⟨page, rfl, hp, hpage10⟩
          · exact Or.inr (processItems_effects up p pg.items acc e h)

/-- Every effect of the search engine is a page fetch with per_page 100 and
page between 1 and 10, a file-content fetch, or a fetch-failure warning. -/
theorem search_effects (up : Upstream) (p : SearchParams) :
    ∀ e ∈ (searchAcrossOrganizations up p).2,
      (∃ pg2, e = Effect.searchCall pg2 100 ∧ 1 ≤ pg2 ∧ pg2 ≤ 10) ∨
      (∃ o r pa rf, e = Effect.fileFetch o r pa rf) ∨
      (∃ repo pa msg, e = Effect.warn (fetchWarnMsg repo pa msg)) := by
  intro e he
  exact searchLoop_effects up p 10 1 [] (by omega) (by omega) e he

theorem processRepo_totalRepositories (up : Upstream) (cfg : SearchReplaceConfig)
    (s : ExecutionSummary) (entry : String × List FileMatch) :
    (processRepo up cfg s entry).1.totalRepositories = s.totalRepositories := by
  unfold processRepo
  split
  · rfl
  · dsimp only
    cases (createPullRequest up cfg entry.1 entry.2).1 <;> rfl

theorem processRepos_totalRepositories (up : Upstream) (cfg : SearchReplaceConfig) :
    ∀ (l : List (String × List FileMatch)) (s : ExecutionSummary),
      (processRepos up cfg l s).1.totalRepositories = s.totalRepositories := by
  intro l
  induction l with
  | nil => intro s; rfl
  | cons entry rest ih =>
    intro s
    simp only [processRepos]
    rw [ih]
    exact processRepo_totalRepositories up cfg s entry

theorem processRepo_dry (up : Upstream) (cfg : SearchReplaceConfig)
    (hd : cfg.dryRun = true) (s : ExecutionSummary) (entry : String × List FileMatch) :
    processRepo up cfg s entry =
      ({ s with totalFilesChanged := s.totalFilesChanged + entry.2.length }, []) := by
  unfold processRepo
  simp [hd]

theorem processRepos_dry (up : Upstream) (cfg : SearchReplaceConfig)
    (hd : cfg.dryRun = true) :
    ∀ (l : List (String × List FileMatch)) (s : ExecutionSummary),
      (processRepos up cfg l s).1.successfulPRs = s.successfulPRs ∧
      (processRepos up cfg l s).1.prs = s.prs ∧
      (processRepos up cfg l s).2 = [] := by
  intro l
  induction l with
  | nil => intro s; exact ⟨rfl, rfl, rfl⟩
  | cons entry rest ih =>
    intro s
    simp only [processRepos, processRepo_dry up cfg hd]
    exact ⟨(ih _).1, (ih _).2.1, by simp [(ih _).2.2]⟩

/-- The token list a metacharacter-free pattern parses to: one literal
token per character. -/
def litToks (s : List Char) : List RTok :=
  s.map (fun c => RTok.one (RAtom.lit c))

theorem parsePattern_safe : ∀ l : List Char,
    (∀ c ∈ l, jsRegexMeta.contains c = false) → parsePattern l = litToks l := by
  intro l
  induction l with
  | nil => intro _; rfl
  | cons c rest ih =>
    intro h
    have hc : jsRegexMeta.contains c = false := h c (List.mem_cons_self _ _)
    have hcdot : ¬ c = '.' := by
      intro hdot
      rw [hdot] at hc
      simp [jsRegexMeta] at hc
    cases rest with
    | nil => simp [parsePattern, litToks, if_neg hcdot]
    | cons d r2 =>
      have hd : jsRegexMeta.contains d = false := h d (by simp)
      have hdp : ¬ d = '+' := by
        intro hh
        rw [hh] at hd
        simp [jsRegexMeta] at hd
      have hds : ¬ d = '*' := by
        intro hh
        rw [hh] at hd
        simp [jsRegexMeta] at hd
      have ihr : parsePattern (d :: r2) = litToks (d :: r2) :=
        ih (fun x hx => h x (List.mem_cons_of_mem _ hx))
      simp only [parsePattern, if_neg hcdot, if_neg hdp, if_neg hds, ihr, litToks,
        List.map_cons]

theorem litToks_cons (c : Char) (cs : List Char) :
    litToks (c :: cs) = RTok.one (RAtom.lit c) :: litToks cs := rfl

theorem matchLenF_lits : ∀ (s t : List Char) (f : Nat), s.length < f →
    matchLenF f (litToks s) t = if s.isPrefixOf t then some s.length else none := by
  intro s
  induction s with
  | nil =>
    intro t f hf
    cases f with
    | zero => omega
    | succ f2 => simp [litToks, matchLenF, List.isPrefixOf]
  | cons c cs ih =>
    intro t f hf
    cases f with
    | zero => omega
    | succ f2 =>
      cases t with
      | nil => simp [litToks, matchLenF, List.isPrefixOf]
      | cons d ds =>
        rw [litToks_cons]
        simp only [matchLenF]
        by_cases hcd : c = d
        · rw [show (matchLenF f2 (litToks cs) ds) =
              (if cs.isPrefixOf ds then some cs.length else none) from
            ih ds f2 (by simp at hf; omega)]
          subst hcd
          by_cases hpre : cs.isPrefixOf ds
          · simp [matchesAtom, List.isPrefixOf, hpre]
          · simp [matchesAtom, List.isPrefixOf, hpre]
        · simp [matchesAtom, hcd, List.isPrefixOf]

theorem gCountF_pos : ∀ (t s : List Char) (f : Nat), t.length < f →
    containsSub s t = true → 1 ≤ gCountF f (litToks s) t := by
  intro t
  induction t with
  | nil =>
    intro s f hf hc
    have hs : s = [] := by
      cases s with
      | nil => rfl
      | cons a as => simp [containsSub] at hc
    subst hs
    cases f with
    | zero => omega
    | succ f2 => simp [gCountF, litToks, matchLenF]
  | cons c rest ih =>
    intro s f hf hc
    cases f with
    | zero => omega
    | succ f2 =>
      have hml : matchLenF ((litToks s).length + 1) (litToks s) (c :: rest) =
          if s.isPrefixOf (c :: rest) then some s.length else none := by
        apply matchLenF_lits
        simp [litToks]
      by_cases hpre : s.isPrefixOf (c :: rest)
      · cases hsl : s.length with
        | zero =>
          simp only [gCountF, hml, if_pos hpre, hsl]
          omega
        | succ n =>
          simp only [gCountF, hml, if_pos hpre, hsl]
          omega
      · simp only [gCountF, hml, if_neg hpre]
        have hc2 : containsSub s rest = true := by
          simp only [containsSub, Bool.or_eq_true] at hc
          rcases hc with h | h
          · exact absurd h hpre
          · exact h
        have := ih s f2 (by simp at hf; omega) hc2
        omega

/-- For a metacharacter-free search string, the global-regex match count the
code computes is at least one whenever the search string literally occurs in
the content. -/
theorem jsMatchCount_pos (pat content : String) (hsafe : regexSafe pat = true)
    (hinc : jsIncludes content pat = true) : 1 ≤ jsMatchCount pat content := by
  have hmeta : ∀ c ∈ pat.toList, jsRegexMeta.contains c = false := by
    intro c hcmem
    have h2 := (List.all_eq_true.mp hsafe) c hcmem
    simpa using h2
  unfold jsMatchCount
  rw [parsePattern_safe pat.toList hmeta]
  have hlen : content.toList.length = content.length := rfl
  exact gCountF_pos content.toList pat.toList (content.length + 1) (by omega) hinc

/-- The FileMatch the search stores for upOneFile "zoldz" with search string
old. -/
def mOld : FileMatch :=
  { path := "f", content := "zoldz", sha := "s1", matchCount := 1,
    repository := "o/r", url := "u" }

/-- The config whose search and replacement strings coincide. -/
def cfgSame : SearchReplaceConfig := { cfgBase with replacementString := "old" }

/-- A dry-run configuration. -/
def cfgDry : SearchReplaceConfig := { cfgBase with dryRun := true }

/-- Search string containing a regex dot, for the literal-substitution
comparison. -/
def cfgDot : SearchReplaceConfig :=
  { cfgBase with searchString := "a.c", replacementString := "X" }

/-- Search string containing a regex plus, for the matchCount comparison. -/
def cfgPlus : SearchReplaceConfig :=
  { cfgBase with searchString := "a+b", replacementString := "c" }

/-- An archived-repository hit (filtered out by the search engine). -/
def archItem : SearchItem := { itemA with archived := true }

/-- An upstream whose every search page is full (100 archived items) with
total_count 1100: more than ten pages of results exist. -/
def upTrunc : Upstream :=
  { upNone with
      searchCode := fun _ _ =>
        .ok { items := List.replicate 100 archItem, total_count := 1100 } }

/-- Search hits in two repositories o/r1 and o/r2. -/
def itemR1 : SearchItem := { itemA with path := "f", fullName := "o/r1", repoName := "r1" }

def itemR2 : SearchItem := { itemA with path := "g", fullName := "o/r2", repoName := "r2" }

def riR1 : RepositoryInfo := { riA with name := "r1", fullName := "o/r1" }

def riR2 : RepositoryInfo := { riA with name := "r2", fullName := "o/r2" }

/-- Upstream where o/r1's file changed after search (its current sha differs
from the sha captured in the match) while o/r2 publishes cleanly. -/
def upConflict : Upstream :=
  { searchCode := fun _ page =>
      if page = 1 then .ok { items := [itemR1, itemR2], total_count := 2 }
      else .ok { items := [], total_count := 0 },
    getContent := fun _ r _ _ =>
      if r = "r1" then .ok (.file "old x" "sha1") else .ok (.file "old y" "sha2"),
    repoInfo := fun rn => if rn = "o/r1" then some riR1 else some riR2,
    getRefSha := fun _ _ => .ok "base",
    createRefErr := fun _ _ => none,
    currentFileSha := fun r _ => if r = "o/r1" then "changed" else "sha2",
    commitErr := fun _ _ => none,
    prCreate := fun _ => .ok (7, "purl"),
    addLabelsErr := fun _ => none,
    timestamp := "ts" }

/-- Upstream identical to upConflict except that o/r1's sha is NOT stale;
instead its branch creation fails, with the API reporting the same message
text.  The code records only err.message, so both runs are
indistinguishable to the caller. -/
def upOtherFailure : Upstream :=
  { upConflict with
      currentFileSha := fun r _ => if r = "o/r1" then "sha1" else "sha2",
      createRefErr := fun r _ =>
        if r = "o/r1" then some (shaConflictMsg "f" "sha1") else none }

/-- The summary both conflict-scenario runs produce. -/
def summaryC3 : ExecutionSummary :=
  { totalRepositories := 0, repositoriesWithMatches := 2, totalFilesChanged := 2,
    successfulPRs := 1, failedPRs := 1,
    prs := [{ repository := "o/r2", prNumber := 7, prUrl := "purl",
              filesChanged := 1, branchName := "bp-ts" }],
    errors := ["Failed to create PR for o/r1: f does not match expected sha sha1"] }

/-- C1: the code does NOT treat the search string as a literal sequence.
With searchString a.c (a regex dot) and file content abc a.c, the pipeline
stores matchCount 2 and commits X X, while the literal count is 1 and the
literal substitution gives abc X.  This evaluates the code at the failing
input of the literal-substring-safety requirement. -/
theorem c1_regex_not_literal :
    Effect.commitFile "o/r" "f" "bp-ts" "X X" ∈
      (executeSearchReplace (upOneFile "abc a.c") cfgDot).2 ∧
    (searchAcrossOrganizations (upOneFile "abc a.c") (searchParams cfgDot)).1 =
      .ok [("o/r", [{ path := "f", content := "abc a.c", sha := "s1", matchCount := 2,
                      repository := "o/r", url := "u" }])] ∧
    literalOccurrences "a.c" "abc a.c" = 1 ∧
    jsReplaceAll "a.c" "X" "abc a.c" = "X X" ∧
    literalReplaceAll "a.c" "X" "abc a.c" = "abc X" := by decide

/-- C2 counterexample: executeSearchReplace DOES throw for some
configuration: a configuration with equal search and replacement strings
makes it throw the Configuration-errors exception (the Except error) rather
than return a summary, refuting never-throws over all configurations. -/
theorem c2_throws_on_invalid_config :
    executeSearchReplace upNone cfgSame =
      (.error "Configuration errors: Search and replacement strings cannot be the same",
       []) := by decide

/-- C2 amended: for every configuration that passes validation,
executeSearchReplace never throws: it returns an ExecutionSummary, and a
search failure is caught and recorded in the summary's errors. -/
theorem c2_valid_config_never_throws (up : Upstream) (cfg : SearchReplaceConfig)
    (hv : validateConfig cfg = []) :
    ∃ s, (executeSearchReplace up cfg).1 = .ok s ∧
      ∀ m, (searchAcrossOrganizations up (searchParams cfg)).1 = .error m →
        s.errors = ["Error during search operation: " ++ m] := by
  unfold executeSearchReplace
  rw [if_neg (by simp [hv])]
  cases hsr : searchAcrossOrganizations up (searchParams cfg) with
  | mk r effs =>
    cases r with
    | error m0 =>
      refine ⟨_, rfl, ?_⟩
      intro m hm
      dsimp at hm
      injection hm with hmm
      rw [← hmm]
    | ok mm =>
      refine ⟨_, rfl, ?_⟩
      intro m hm
      dsimp at hm
      cases hm

theorem c2_valid_config_never_throws_witness :
    ∃ s, (executeSearchReplace upNone cfgBase).1 = .ok s ∧
      ∀ m, (searchAcrossOrganizations upNone (searchParams cfgBase)).1 = .error m →
        s.errors = ["Error during search operation: " ++ m] :=
  c2_valid_config_never_throws upNone cfgBase (by decide)

/-- C3 counterexample: a run in which o/r1's content hash is stale and a run
in which it is not stale (the failure is a branch-creation error whose
API-provided message happens to coincide) return EQUAL summaries, so the
stale-hash failure is not a distinct named ConflictError and is not
distinguishable from other publish failures by the caller; the other
repository o/r2 is processed successfully in both runs. -/
theorem c3_conflict_not_distinguishable :
    (executeSearchReplace upConflict cfgBase).1 = .ok summaryC3 ∧
    (executeSearchReplace upOtherFailure cfgBase).1 = .ok summaryC3 ∧
    upConflict.currentFileSha "o/r1" "f" ≠ "sha1" ∧
    upOtherFailure.currentFileSha "o/r1" "f" = "sha1" := by decide

/-- C3 amended: when a file's sha changed between search and commit, the
publish step for that repository fails, carrying the upstream 409 message;
the orchestrator records it as a plain error string and other repositories
continue (per-repository isolation), but no dedicated ConflictError type
exists, so the caller can distinguish the failure only by message text. -/
theorem c3_stale_sha_fails_publish (up : Upstream) (cfg : SearchReplaceConfig)
    (repo : String) (m : FileMatch) (ri : RepositoryInfo)
    (h1 : up.repoInfo repo = some ri)
    (h2 : ∃ bsha, up.getRefSha repo ri.defaultBranch = .ok bsha)
    (h3 : up.createRefErr repo (cfg.branchPrefix ++ "-" ++ up.timestamp) = none)
    (h4 : up.currentFileSha repo m.path ≠ m.sha) :
    (createPullRequest up cfg repo [m]).1 = .error (shaConflictMsg m.path m.sha) := by
  obtain ⟨bsha, h2⟩ := h2
  simp [createPullRequest, h1, h2, h3, commitMatches, commitResult, if_pos h4]

/-- The FileMatch stored for o/r1 in the conflict scenario. -/
def mR1 : FileMatch :=
  { path := "f", content := "old x", sha := "sha1", matchCount := 1,
    repository := "o/r1", url := "u" }

theorem c3_stale_sha_fails_publish_witness :
    (createPullRequest upConflict cfgBase "o/r1" [mR1]).1 =
      .error (shaConflictMsg mR1.path mR1.sha) :=
  c3_stale_sha_fails_publish upConflict cfgBase "o/r1" mR1 riR1 (by decide)
    ⟨"base", by decide⟩ (by decide) (by decide)

/-- C4 counterexample: with searchString a+b (a regex plus) and fetched
content xa+by, the literal inclusion check passes, so the search stores a
FileMatch, but its matchCount is 0 (the regex a+b does not match), refuting
matchCount at least 1 for all search strings. -/
theorem c4_zero_matchCount_stored :
    (searchAcrossOrganizations (upOneFile "xa+by") (searchParams cfgPlus)).1 =
      .ok [("o/r", [{ path := "f", content := "xa+by", sha := "s1", matchCount := 0,
                      repository := "o/r", url := "u" }])] ∧
    jsIncludes "xa+by" "a+b" = true := by decide

/-- C4 amended: every FileMatch the search engine stores has matchCount at
least 1 PROVIDED the search string is free of regex metacharacters; for
metacharacter-containing search strings the stored matchCount can be 0. -/
theorem c4_matchCount_pos_for_safe_search (up : Upstream) (p : SearchParams)
    (mm : MatchMap) (hsafe : regexSafe p.searchString = true)
    (hok : (searchAcrossOrganizations up p).1 = .ok mm)
    (repo : String) (ms : List FileMatch) (hmem : (repo, ms) ∈ mm)
    (m : FileMatch) (hm : m ∈ ms) : 1 ≤ m.matchCount := by
  obtain ⟨hinc, hcount, _⟩ := search_good up p mm hok repo ms hmem m hm
  rw [hcount]
  exact jsMatchCount_pos p.searchString m.content hsafe hinc

theorem c4_matchCount_pos_for_safe_search_witness : 1 ≤ mOld.matchCount :=
  c4_matchCount_pos_for_safe_search (upOneFile "zoldz") (searchParams cfgBase)
    [("o/r", [mOld])] (by decide) (by decide) "o/r" [mOld] (by decide) mOld (by decide)

set_option maxRecDepth 8000 in
/-- C5 counterexample: with eleven pages of results upstream (total_count
1100, every page full), the loop requests exactly pages 1 to 10 and stops;
the truncation is NOT reported: the run emits no warning at all (the effect
list holds nothing but the ten page fetches) even though page 10 was full
and more results remained, refuting the reported-as-a-warning part. -/
theorem c5_truncation_silent :
    searchAcrossOrganizations upTrunc (searchParams cfgBase) =
      (.ok [], [Effect.searchCall 1 100, Effect.searchCall 2 100, Effect.searchCall 3 100,
        Effect.searchCall 4 100, Effect.searchCall 5 100, Effect.searchCall 6 100,
        Effect.searchCall 7 100, Effect.searchCall 8 100, Effect.searchCall 9 100,
        Effect.searchCall 10 100]) ∧
    upTrunc.searchCode (buildQuery (searchParams cfgBase)) 10 =
      .ok { items := List.replicate 100 archItem, total_count := 1100 } ∧
    (List.replicate 100 archItem).length = 100 ∧ 10 < (1100 + 99) / 100 := by decide

/-- C5 amended: every search page is requested with per_page 100 and page
number between 1 and 10 (the hard cap), and the only warnings the search
ever emits are per-file fetch warnings - reaching the cap is not an error,
but it is also not reported: truncation is silent. -/
theorem c5_page_bounds (up : Upstream) (p : SearchParams) (pg per : Nat)
    (h : Effect.searchCall pg per ∈ (searchAcrossOrganizations up p).2) :
    (per = 100 ∧ 1 ≤ pg ∧ pg ≤ 10) ∧
    ∀ msg, Effect.warn msg ∈ (searchAcrossOrganizations up p).2 →
      ∃ repo pa m, msg = fetchWarnMsg repo pa m := by
  constructor
  · rcases search_effects up p _ h with ⟨pg2, heq, h1, h2⟩ | ⟨o, r, pa, rf, heq⟩ |
      ⟨repo, pa, m2, heq⟩
    · injection heq with e1 e2
      exact ⟨e2, by rw [e1]; exact h1, by rw [e1]; exact h2⟩
    · cases heq
    · cases heq
  · intro msg hm
    rcases search_effects up p _ hm with ⟨pg2, heq, _, _⟩ | ⟨o, r, pa, rf, heq⟩ |
      ⟨repo, pa, m2, heq⟩
    · cases heq
    · cases heq
    · injection heq with e1
      exact ⟨repo, pa, m2, e1⟩

theorem c5_page_bounds_witness :
    ((100 : Nat) = 100 ∧ 1 ≤ (1 : Nat) ∧ (1 : Nat) ≤ 10) ∧
    ∀ msg, Effect.warn msg ∈ (searchAcrossOrganizations upNone (searchParams cfgBase)).2 →
      ∃ repo pa m, msg = fetchWarnMsg repo pa m :=
  c5_page_bounds upNone (searchParams cfgBase) 1 100 (by decide)

/-- C6: every FileMatch in the result map was built from a freshly fetched
actual file blob (directories and non-file blobs are never included) whose
content still literally contains the search string; hits whose fetched
content no longer contains it are excluded, since every included match
satisfies this invariant. -/
theorem c6_included_only_if_contains (up : Upstream) (p : SearchParams)
    (mm : MatchMap) (hok : (searchAcrossOrganizations up p).1 = .ok mm)
    (repo : String) (ms : List FileMatch) (hmem : (repo, ms) ∈ mm)
    (m : FileMatch) (hm : m ∈ ms) :
    jsIncludes m.content p.searchString = true ∧
    ∃ o r pa rf, up.getContent o r pa rf = .ok (.file m.content m.sha) := by
  obtain ⟨h1, _, h3⟩ := search_good up p mm hok repo ms hmem m hm
  exact ⟨h1, h3⟩

theorem c6_included_only_if_contains_witness :
    jsIncludes mOld.content (searchParams cfgBase).searchString = true ∧
    ∃ o r pa rf, (upOneFile "zoldz").getContent o r pa rf =
      .ok (.file mOld.content mOld.sha) :=
  c6_included_only_if_contains (upOneFile "zoldz") (searchParams cfgBase)
    [("o/r", [mOld])] (by decide) "o/r" [mOld] (by decide) mOld (by decide)

/-- C7: a configuration whose search and replacement strings are equal
always yields a non-empty validation error list, and executeSearchReplace
on it aborts (throws) before issuing any network call or other effect. -/
theorem c7_same_strings_rejected (up : Upstream) (cfg : SearchReplaceConfig)
    (h : cfg.searchString = cfg.replacementString) :
    validateConfig cfg ≠ [] ∧
    (∃ m, (executeSearchReplace up cfg).1 = .error m) ∧
    (executeSearchReplace up cfg).2 = [] := by
  have hmem : "Search and replacement strings cannot be the same" ∈ validateConfig cfg := by
    simp [validateConfig, h]
  have hne : validateConfig cfg ≠ [] := List.ne_nil_of_mem hmem
  refine ⟨hne, ?_, ?_⟩
  · unfold executeSearchReplace
    rw [if_pos hne]
    exact ⟨_, rfl⟩
  · unfold executeSearchReplace
    rw [if_pos hne]

theorem c7_same_strings_rejected_witness :
    validateConfig cfgSame ≠ [] ∧
    (∃ m, (executeSearchReplace upNone cfgSame).1 = .error m) ∧
    (executeSearchReplace upNone cfgSame).2 = [] :=
  c7_same_strings_rejected upNone cfgSame (by decide)

/-- C8: a dry run performs exactly the search (its effect trace equals the
search engine's effect trace, which contains no branch, commit, PR or label
call), returns a summary with successfulPRs 0 and no PRs, and the match
discovery is independent of the dryRun flag (searchParams ignores it). -/
theorem c8_dry_run_no_mutations (up : Upstream) (cfg : SearchReplaceConfig)
    (hd : cfg.dryRun = true) (hv : validateConfig cfg = []) :
    ∃ s, (executeSearchReplace up cfg).1 = .ok s ∧ s.successfulPRs = 0 ∧ s.prs = [] ∧
      (executeSearchReplace up cfg).2 = (searchAcrossOrganizations up (searchParams cfg)).2 ∧
      (∀ e ∈ (executeSearchReplace up cfg).2, e.isMutation = false) ∧
      searchParams { cfg with dryRun := false } = searchParams cfg := by
  unfold executeSearchReplace
  rw [if_neg (by simp [hv])]
  cases hsr : searchAcrossOrganizations up (searchParams cfg) with
  | mk r effs =>
    have hmut : ∀ e ∈ effs, e.isMutation = false := by
      intro e he
      have he2 : e ∈ (searchAcrossOrganizations up (searchParams cfg)).2 := by
        rw [hsr]
        exact he
      rcases search_effects up (searchParams cfg) e he2 with ⟨pg2, heq, _, _⟩ |
        ⟨o, r2, pa, rf, heq⟩ | ⟨repo, pa, m2, heq⟩ <;> (subst heq; rfl)
    cases r with
    | error m0 =>
      exact ⟨_, rfl, rfl, rfl, rfl, hmut, rfl⟩
    | ok mm =>
      have hdry := processRepos_dry up cfg hd mm
        { initSummary with repositoriesWithMatches := mm.length }
      refine ⟨_, rfl, ?_, ?_, ?_, ?_, rfl⟩
      · rw [(hdry).1]
        rfl
      · rw [(hdry).2.1]
        rfl
      · dsimp only
        rw [(hdry).2.2, List.append_nil]
      · dsimp only
        rw [(hdry).2.2, List.append_nil]
        exact hmut

theorem c8_dry_run_no_mutations_witness :
    ∃ s, (executeSearchReplace (upOneFile "zoldz") cfgDry).1 = .ok s ∧
      s.successfulPRs = 0 ∧ s.prs = [] ∧
      (executeSearchReplace (upOneFile "zoldz") cfgDry).2 =
        (searchAcrossOrganizations (upOneFile "zoldz") (searchParams cfgDry)).2 ∧
      (∀ e ∈ (executeSearchReplace (upOneFile "zoldz") cfgDry).2, e.isMutation = false) ∧
      searchParams { cfgDry with dryRun := false } = searchParams cfgDry :=
  c8_dry_run_no_mutations (upOneFile "zoldz") cfgDry rfl (by decide)

/-- C9: the totalRepositories field of every summary executeSearchReplace
returns is 0: it is initialized to zero and no code path updates it. -/
theorem c9_totalRepositories_always_zero (up : Upstream) (cfg : SearchReplaceConfig)
    (s : ExecutionSummary) (h : (executeSearchReplace up cfg).1 = .ok s) :
    s.totalRepositories = 0 := by
  unfold executeSearchReplace at h
  by_cases hv : validateConfig cfg ≠ []
  · rw [if_pos hv] at h
    simp at h
  · rw [if_neg hv] at h
    cases hsr : searchAcrossOrganizations up (searchParams cfg) with
    | mk r effs =>
      rw [hsr] at h
      cases r with
      | error m0 =>
        dsimp at h
        injection h with h2
        rw [← h2]
        rfl
      | ok mm =>
        dsimp at h
        injection h with h2
        rw [← h2]
        rw [processRepos_totalRepositories]
        rfl

theorem c9_totalRepositories_always_zero_witness :
    ExecutionSummary.totalRepositories
      { totalRepositories := 0, repositoriesWithMatches := 0, totalFilesChanged := 0,
        successfulPRs := 0, failedPRs := 0, prs := [], errors := [] } = 0 :=
  c9_totalRepositories_always_zero upNone cfgBase
    { totalRepositories := 0, repositoriesWithMatches := 0, totalFilesChanged := 0,
      successfulPRs := 0, failedPRs := 0, prs := [], errors := [] } (by decide)

/-- C10: a configuration with empty replacement string always yields the
Replacement-string-is-required validation error, hence a non-empty error
list, and executeSearchReplace on it aborts with zero effects (a
delete-all-occurrences run is rejected before any network work). -/
theorem c10_empty_replacement_rejected (up : Upstream) (cfg : SearchReplaceConfig)
    (h : cfg.replacementString = "") :
    "Replacement string is required" ∈ validateConfig cfg ∧
    validateConfig cfg ≠ [] ∧
    (∃ m, (executeSearchReplace up cfg).1 = .error m) ∧
    (executeSearchReplace up cfg).2 = [] := by
  have hmem : "Replacement string is required" ∈ validateConfig cfg := by
    simp [validateConfig, h]
  have hne : validateConfig cfg ≠ [] := List.ne_nil_of_mem hmem
  refine ⟨hmem, hne, ?_, ?_⟩
  · unfold executeSearchReplace
    rw [if_pos hne]
    exact ⟨_, rfl⟩
  · unfold executeSearchReplace
    rw [if_pos hne]

theorem c10_empty_replacement_rejected_witness :
    "Replacement string is required" ∈ validateConfig { cfgBase with replacementString := "" } ∧
    validateConfig { cfgBase with replacementString := "" } ≠ [] ∧
    (∃ m, (executeSearchReplace upNone { cfgBase with replacementString := "" }).1 =
      .error m) ∧
    (executeSearchReplace upNone { cfgBase with replacementString := "" }).2 = [] :=
  c10_empty_replacement_rejected upNone { cfgBase with replacementString := "" } rfl
